import Mathlib

/-!
Verification of the pcaster audio-processing core (gain node, lookahead
limiter, node chain) against its natural-language specification.

Samples are modelled as exact rationals.  The two transcendental helpers of
the source — `10.0_f32.powf(t / 20.0)` (dB to linear amplitude) and
`(-1.0 / x).exp()` (release coefficient) — are abstracted as explicit
function parameters `db2lin` and `expNegInv`; every structural fact below is
proved for an arbitrary such function, and concrete evaluations instantiate
them at anchor points where the real functions have exact rational values
(for instance `10 ^ (-20 / 20) = 1 / 10` and `10 ^ (0 / 20) = 1`).
-/

/-- State of `LimiterNode` (src/process/limiter.rs lines 6-13): configured
threshold, derived release coefficient, envelope-follower state, the pending
lookahead FIFO (front of the list = front of the `VecDeque`), and the derived
lookahead sample count. -/
structure LimiterNode where
  threshold : ℚ
  release_coeff : ℚ
  envelope : ℚ
  lookahead_buffer : List ℚ
  lookahead_samples : ℕ
deriving Repr, DecidableEq

/-- `LimiterNode::new` (limiter.rs lines 16-32): derives
`release_coeff = exp(-1/(sample_rate * release_time_sec))` — here
`expNegInv` applied to the product — and
`lookahead_samples = (lookahead_sec * sample_rate) as usize` (truncating,
saturating at zero), and starts with envelope `0` and an empty FIFO.
No parameter validation is performed by the source. -/
def LimiterNode.new (expNegInv : ℚ → ℚ)
    (threshold release_time_sec lookahead_sec sample_rate : ℚ) : LimiterNode :=
  { threshold := threshold
    release_coeff := expNegInv (sample_rate * release_time_sec)
    envelope := 0
    lookahead_buffer := []
    lookahead_samples := ((lookahead_sec * sample_rate).floor).toNat }

/-- The asymmetric envelope follower of `process_sample`
(limiter.rs lines 48-52): instantaneous attack, single-pole release. -/
def envUpdate (release_coeff envelope input_lvl : ℚ) : ℚ :=
  if input_lvl > envelope then input_lvl
  else release_coeff * envelope + (1 - release_coeff) * input_lvl

/-- `LimiterNode::process_sample` (limiter.rs lines 34-63).  Pushes the
sample, passes it through while `buffer.len() < lookahead_samples`, and
otherwise updates the envelope from the newest sample, compares the envelope
against the raw `threshold` field, converts the threshold to linear only in
the division, and emits the popped head times the gain. -/
def LimiterNode.process_sample (db2lin : ℚ → ℚ) (n : LimiterNode) (sample : ℚ) :
    LimiterNode × ℚ :=
  let buffer := n.lookahead_buffer ++ [sample]
  if buffer.length < n.lookahead_samples then
    ({ n with lookahead_buffer := buffer }, sample)
  else
    let future_sample := (buffer.getLast?).getD 0
    let input_lvl := |future_sample|
    let envelope := envUpdate n.release_coeff n.envelope input_lvl
    let gain := if n.threshold < envelope then db2lin n.threshold / envelope else 1
    let output_sample := ((buffer.head?).getD 0) * gain
    ({ n with envelope := envelope, lookahead_buffer := buffer.tail }, output_sample)

/-- The accumulating loop of `LimiterNode::process` (limiter.rs lines 69-76):
`let mut out = Vec::new(); for &sample in input { out.push(process_sample(sample)) }`. -/
def limiterLoop (db2lin : ℚ → ℚ) (n : LimiterNode) (out : List ℚ) :
    List ℚ → LimiterNode × List ℚ
  | [] => (n, out)
  | sample :: rest =>
    let r := LimiterNode.process_sample db2lin n sample
    limiterLoop db2lin r.1 (out ++ [r.2]) rest

/-- `LimiterNode::process` (limiter.rs lines 69-76). -/
def LimiterNode.process (db2lin : ℚ → ℚ) (n : LimiterNode) (input_buffer : List ℚ) :
    LimiterNode × List ℚ :=
  limiterLoop db2lin n [] input_buffer

/-- `LimiterNode::process_in_place` (limiter.rs lines 78-82): each slot is
overwritten in order with `process_sample` of its current value. -/
def LimiterNode.process_in_place (db2lin : ℚ → ℚ) (n : LimiterNode) :
    List ℚ → LimiterNode × List ℚ
  | [] => (n, [])
  | sample :: rest =>
    let r := LimiterNode.process_sample db2lin n sample
    let r2 := LimiterNode.process_in_place db2lin r.1 rest
    (r2.1, r.2 :: r2.2)

/-- `LimiterNode::box_clone` via `#[derive(Clone)]` (limiter.rs lines 6 and
88-90): a field-wise value copy of configuration and of the current mutable
state (`Cell<f32>` and `RefCell<VecDeque<f32>>` both clone their contents). -/
def LimiterNode.box_clone (n : LimiterNode) : LimiterNode :=
  { threshold := n.threshold
    release_coeff := n.release_coeff
    envelope := n.envelope
    lookahead_buffer := n.lookahead_buffer
    lookahead_samples := n.lookahead_samples }

/-- `GainNode::process` (src/process/gain.rs lines 82-87):
`linear_gain = 10^(db/20)`, then map. -/
def gainProcess (db2lin : ℚ → ℚ) (db : ℚ) (input : List ℚ) : List ℚ :=
  let linear_gain := db2lin db
  input.map (fun sample => sample * linear_gain)

/-- The `iter_mut().for_each(|sample| *sample *= linear_gain)` loop of
`GainNode::process_in_place`, slot by slot. -/
def gainScaleEach (linear_gain : ℚ) : List ℚ → List ℚ
  | [] => []
  | sample :: rest => sample * linear_gain :: gainScaleEach linear_gain rest

/-- `GainNode::process_in_place` (gain.rs lines 89-94). -/
def gainProcessInPlace (db2lin : ℚ → ℚ) (db : ℚ) (buffer : List ℚ) : List ℚ :=
  let linear_gain := db2lin db
  gainScaleEach linear_gain buffer

/-- A `Box<dyn AudioNode>` as stored in an `AudioNodeChain`: one of the two
node implementations of the repository, with its current state. -/
inductive Node where
  | gain (db : ℚ)
  | limiter (ln : LimiterNode)
deriving Repr, DecidableEq

/-- Dynamic dispatch of `AudioNode::process`; the returned `Node` carries the
state the call leaves behind (the source mutates it through interior
mutability). -/
def Node.process (db2lin : ℚ → ℚ) : Node → List ℚ → Node × List ℚ
  | .gain db, input => (.gain db, gainProcess db2lin db input)
  | .limiter ln, input =>
    let r := LimiterNode.process db2lin ln input
    (.limiter r.1, r.2)

/-- Dynamic dispatch of `AudioNode::process_in_place`. -/
def Node.process_in_place (db2lin : ℚ → ℚ) : Node → List ℚ → Node × List ℚ
  | .gain db, buffer => (.gain db, gainProcessInPlace db2lin db buffer)
  | .limiter ln, buffer =>
    let r := LimiterNode.process_in_place db2lin ln buffer
    (.limiter r.1, r.2)

/-- `AudioNodeChain::process` (src/process/node.rs lines 152-158):
`buffer = node.process(&buffer)` for each node in insertion order; the
returned node list is the chain's nodes with their post-call states. -/
def AudioNodeChain.process (db2lin : ℚ → ℚ) : List Node → List ℚ → List Node × List ℚ
  | [], buffer => ([], buffer)
  | node :: rest, buffer =>
    let r := Node.process db2lin node buffer
    let r2 := AudioNodeChain.process db2lin rest r.2
    (r.1 :: r2.1, r2.2)

/-- `AudioNodeChain::process_in_place` (node.rs lines 169-173). -/
def AudioNodeChain.process_in_place (db2lin : ℚ → ℚ) :
    List Node → List ℚ → List Node × List ℚ
  | [], buffer => ([], buffer)
  | node :: rest, buffer =>
    let r := Node.process_in_place db2lin node buffer
    let r2 := AudioNodeChain.process_in_place db2lin rest r.2
    (r.1 :: r2.1, r2.2)

/-- A heap of limiter nodes, used to express independence of a node and its
`box_clone`: each index is one allocation, processing index `i` rewrites only
entry `i`. -/
def storeProcess (db2lin : ℚ → ℚ) (s : List LimiterNode) (i : ℕ) (xs : List ℚ) :
    List LimiterNode × List ℚ :=
  match s[i]? with
  | none => (s, [])
  | some n =>
    let r := LimiterNode.process db2lin n xs
    (s.set i r.1, r.2)

/-- Duplicating the node at index `i`: `box_clone` allocates the copy at a
fresh index (the end of the store). -/
def storeDup (s : List LimiterNode) (i : ℕ) : List LimiterNode :=
  match s[i]? with
  | none => s
  | some n => s ++ [n.box_clone]

/-- Concrete instance of the dB-to-linear map `t ↦ 10 ^ (t / 20)` at the
anchor points used by concrete evaluations: `10^(-20/20) = 1/10`,
`10^(0/20) = 1` (exact values of the real function). -/
def db2linTest : ℚ → ℚ :=
  fun t => if t = -20 then 1 / 10 else 1

/-- Concrete stand-in for `x ↦ exp (-1 / x)` in concrete evaluations of the
constructor (any fixed value works for the facts proved about it). -/
def expNegInvTest : ℚ → ℚ :=
  fun _ => 1 / 2

lemma gainScaleEach_eq_map (g : ℚ) (xs : List ℚ) :
    gainScaleEach g xs = xs.map (fun sample => sample * g) := by
  induction xs with
  | nil => rfl
  | cons x rest ih => simp [gainScaleEach, ih]

lemma limiterLoop_eq (db2lin : ℚ → ℚ) (xs : List ℚ) :
    ∀ (n : LimiterNode) (out : List ℚ),
      limiterLoop db2lin n out xs =
        ((LimiterNode.process_in_place db2lin n xs).1,
         out ++ (LimiterNode.process_in_place db2lin n xs).2) := by
  induction xs with
  | nil =>
    intro n out
    simp [limiterLoop, LimiterNode.process_in_place]
  | cons x rest ih =>
    intro n out
    simp only [limiterLoop, LimiterNode.process_in_place, ih]
    simp

lemma limiter_process_eq_in_place (db2lin : ℚ → ℚ) (n : LimiterNode) (xs : List ℚ) :
    LimiterNode.process db2lin n xs = LimiterNode.process_in_place db2lin n xs := by
  simp [LimiterNode.process, limiterLoop_eq]

lemma node_process_eq_in_place (db2lin : ℚ → ℚ) (node : Node) (buffer : List ℚ) :
    Node.process_in_place db2lin node buffer = Node.process db2lin node buffer := by
  cases node with
  | gain db =>
    simp [Node.process, Node.process_in_place, gainProcess, gainProcessInPlace,
      gainScaleEach_eq_map]
  | limiter ln =>
    simp [Node.process, Node.process_in_place, limiter_process_eq_in_place]

/-- C4: for every node (gain, limiter, and any chain of them) and every input
buffer, `process` and `process_in_place`, started from identical prior
internal state, yield identical results (same outputs and same final node
states). -/
theorem process_in_place_equiv (db2lin : ℚ → ℚ) :
    (∀ (db : ℚ) (buffer : List ℚ),
      gainProcessInPlace db2lin db buffer = gainProcess db2lin db buffer)
    ∧ (∀ (ln : LimiterNode) (buffer : List ℚ),
      LimiterNode.process_in_place db2lin ln buffer = LimiterNode.process db2lin ln buffer)
    ∧ (∀ (node : Node) (buffer : List ℚ),
      Node.process_in_place db2lin node buffer = Node.process db2lin node buffer)
    ∧ ∀ (chain : List Node) (buffer : List ℚ),
      AudioNodeChain.process_in_place db2lin chain buffer =
        AudioNodeChain.process db2lin chain buffer := by
  refine ⟨?_, ?_, ?_, ?_⟩
  · intro db buffer
    simp [gainProcessInPlace, gainProcess, gainScaleEach_eq_map]
  · intro ln buffer
    exact (limiter_process_eq_in_place db2lin ln buffer).symm
  · intro node buffer
    exact node_process_eq_in_place db2lin node buffer
  · intro chain
    induction chain with
    | nil => intro buffer; rfl
    | cons node rest ih =>
      intro buffer
      simp only [AudioNodeChain.process, AudioNodeChain.process_in_place,
        node_process_eq_in_place, ih]

/-- C5: the chain folds the buffer through its nodes in insertion order: the
empty chain returns the input unchanged, and a two-node chain equals
sequential application of the second node to the first node's output. -/
theorem chain_fold_semantics (db2lin : ℚ → ℚ) :
    (∀ buffer : List ℚ, (AudioNodeChain.process db2lin [] buffer).2 = buffer)
    ∧ ∀ (a b : Node) (buffer : List ℚ),
      (AudioNodeChain.process db2lin [a, b] buffer).2 =
        (Node.process db2lin b ((Node.process db2lin a buffer).2)).2 :=
  ⟨fun _ => rfl, fun _ _ _ => rfl⟩

/-- C8: `GainNode` multiplies every sample by `db2lin db` (modelling
`10^(db/20)`), identically for `process` and `process_in_place`; and since
`10^(0/20) = 1` exactly, zero dB is the exact identity on every sample. -/
theorem gain_scales_and_unity (db2lin : ℚ → ℚ) (db : ℚ) (input : List ℚ) :
    gainProcess db2lin db input = input.map (fun sample => sample * db2lin db)
    ∧ gainProcessInPlace db2lin db input = input.map (fun sample => sample * db2lin db)
    ∧ (db2lin 0 = 1 →
        gainProcess db2lin 0 input = input ∧ gainProcessInPlace db2lin 0 input = input) := by
  refine ⟨rfl, ?_, ?_⟩
  · simp [gainProcessInPlace, gainScaleEach_eq_map]
  · intro h
    exact ⟨by simp [gainProcess, h], by simp [gainProcessInPlace, gainScaleEach_eq_map, h]⟩

/-- Witness for C8 at the unity-gain anchor `db2linTest 0 = 1` on the buffer
`[3, -2]`. -/
theorem gain_scales_and_unity_witness :
    db2linTest 0 = 1
    ∧ gainProcess db2linTest 0 [3, -2] = [3, -2]
    ∧ gainProcessInPlace db2linTest 0 [3, -2] = [3, -2] :=
  ⟨by norm_num [db2linTest],
   ((gain_scales_and_unity db2linTest 0 [3, -2]).2.2 (by norm_num [db2linTest])).1,
   ((gain_scales_and_unity db2linTest 0 [3, -2]).2.2 (by norm_num [db2linTest])).2⟩

/-- C1 (code bug): at threshold -20 dB (linear amplitude 1/10) with zero
lookahead, a steady-phase sample of level 1/20 — below the linear
threshold, so the claim prescribes unity gain and output 1/20 — is emitted
as 1/10: limiter.rs line 55 compares the envelope against the raw dB
threshold field (1/20 > -20), engages limiting and applies the gain
(1/10)/(1/20) = 2, amplifying the quiet signal up to the threshold. -/
theorem limiter_threshold_unit_bug :
    (LimiterNode.process_sample db2linTest ⟨-20, 1/2, 0, [], 0⟩ (1/20)).2 = 1/10
    ∧ (LimiterNode.process_sample db2linTest ⟨-20, 1/2, 0, [], 0⟩ (1/20)).2 ≠ 1/20 := by
  constructor <;>
    norm_num [LimiterNode.process_sample, envUpdate, db2linTest,
      abs_of_pos (show (0:ℚ) < 1/20 by norm_num)]

/-- C2 counterexample: a fresh limiter with `lookahead_samples = 1` does not
pass its first sample through — the fill check `buffer.len() < N` is strict,
so the first push (buffer length 1) already enters the steady phase and the
sample 2 is emitted attenuated (as 1), not unchanged. -/
theorem limiter_fill_count_cex :
    (LimiterNode.process_sample db2linTest ⟨0, 1/2, 0, [], 1⟩ 2).2 ≠ 2 := by
  norm_num [LimiterNode.process_sample, envUpdate, db2linTest]

lemma limiter_fill_run (db2lin : ℚ → ℚ) (th c e : ℚ) (N : ℕ) (xs : List ℚ) :
    ∀ (b : List ℚ), b.length + xs.length < N →
      LimiterNode.process_in_place db2lin ⟨th, c, e, b, N⟩ xs = (⟨th, c, e, b ++ xs, N⟩, xs) := by
  induction xs with
  | nil =>
    intro b h
    simp [LimiterNode.process_in_place]
  | cons x rest ih =>
    intro b h
    have hlen : b.length + (x :: rest).length = b.length + rest.length + 1 := by
      simp only [List.length_cons]
      omega
    have hlt : b.length + 1 < N := by
      rw [hlen] at h
      omega
    have hstep :
        LimiterNode.process_sample db2lin ⟨th, c, e, b, N⟩ x = (⟨th, c, e, b ++ [x], N⟩, x) := by
      simp [LimiterNode.process_sample, hlt]
    have hrest : (b ++ [x]).length + rest.length < N := by
      rw [hlen] at h
      simp only [List.length_append, List.length_cons, List.length_nil]
      omega
    simp [LimiterNode.process_in_place, hstep, ih _ hrest]

/-- C2 (amended): with `lookahead_samples = N` and fresh state, the fill
phase covers only the first N − 1 samples — they are returned unchanged
while the FIFO grows and the envelope stays 0 — and the steady phase (push,
then pop the head) begins with the N-th sample. -/
theorem limiter_fill_passthrough (db2lin : ℚ → ℚ) (th c x : ℚ) (N : ℕ)
    (xs : List ℚ) (n : LimiterNode) :
    (xs.length < N →
      LimiterNode.process db2lin ⟨th, c, 0, [], N⟩ xs = (⟨th, c, 0, xs, N⟩, xs))
    ∧ (n.lookahead_samples ≤ n.lookahead_buffer.length + 1 →
      ((LimiterNode.process_sample db2lin n x).1).lookahead_buffer =
        (n.lookahead_buffer ++ [x]).tail) := by
  constructor
  · intro h
    rw [limiter_process_eq_in_place]
    simpa using limiter_fill_run db2lin th c 0 N xs [] (by simpa using h)
  · intro h
    have hsteady : ¬ n.lookahead_buffer.length + 1 < n.lookahead_samples := by
      omega
    simp [LimiterNode.process_sample, hsteady]

/-- Witness for C2 (amended): N = 3, two samples pass through the fill
phase, and the third call pops the head and keeps the FIFO at two entries. -/
theorem limiter_fill_passthrough_witness :
    LimiterNode.process db2linTest ⟨0, 1/2, 0, [], 3⟩ [5, 7] = (⟨0, 1/2, 0, [5, 7], 3⟩, [5, 7])
    ∧ ((LimiterNode.process_sample db2linTest ⟨0, 1/2, 0, [5, 7], 3⟩ 2).1).lookahead_buffer =
        [7, 2] :=
  ⟨(limiter_fill_passthrough db2linTest 0 (1/2) 2 3 [5, 7] ⟨0, 1/2, 0, [5, 7], 3⟩).1
      (by norm_num),
   by
    have h :=
      (limiter_fill_passthrough db2linTest 0 (1/2) 2 3 [5, 7] ⟨0, 1/2, 0, [5, 7], 3⟩).2
        (by simp)
    simpa using h⟩

/-- Modelled from the spec: the validating constructor the spec mandates
("the constructor must reject such configuration with a configuration
error"), rejecting a non-positive release time or sample rate; no such
validation exists in src (limiter.rs lines 16-32 construct unconditionally). -/
def LimiterNode.new_checked (expNegInv : ℚ → ℚ)
    (threshold release_time_sec lookahead_sec sample_rate : ℚ) :
    Except String LimiterNode :=
  if release_time_sec ≤ 0 ∨ sample_rate ≤ 0 then
    Except.error "configuration error"
  else
    Except.ok (LimiterNode.new expNegInv threshold release_time_sec lookahead_sec sample_rate)

/-- C3 counterexample: at release time 0 the source constructor still
returns a node, while the spec-mandated checked constructor rejects —
construction is never refused. -/
theorem limiter_new_no_rejection_cex :
    Except.ok (LimiterNode.new expNegInvTest (-6) 0 (1/1000) 44100)
      ≠ LimiterNode.new_checked expNegInvTest (-6) 0 (1/1000) 44100 := by
  have herr :
      LimiterNode.new_checked expNegInvTest (-6) 0 (1/1000) 44100 =
        Except.error "configuration error" := by
    norm_num [LimiterNode.new_checked]
  rw [herr]
  exact fun h => Except.noConfusion h

/-- C3 (amended): the constructor performs no validation — for any
parameters, including a non-positive release time or sample rate, it returns
a node whose release coefficient is exp(-1/(sample_rate · release_time))
(degenerate at such parameters), with envelope 0 and an empty FIFO, instead
of raising a configuration error. -/
theorem limiter_new_unvalidated (expNegInv : ℚ → ℚ) (th rts ls sr : ℚ)
    (_h : rts ≤ 0 ∨ sr ≤ 0) :
    LimiterNode.new expNegInv th rts ls sr =
      ⟨th, expNegInv (sr * rts), 0, [], ((ls * sr).floor).toNat⟩ :=
  rfl

/-- Witness for C3 (amended) at release time 0. -/
theorem limiter_new_unvalidated_witness :
    ((0:ℚ) ≤ 0 ∨ (44100:ℚ) ≤ 0)
    ∧ LimiterNode.new expNegInvTest (-6) 0 (1/1000) 44100 =
        ⟨-6, expNegInvTest (44100 * 0), 0, [], ((((1:ℚ)/1000) * 44100).floor).toNat⟩ :=
  ⟨Or.inl le_rfl,
   limiter_new_unvalidated expNegInvTest (-6) 0 (1/1000) 44100 (Or.inl le_rfl)⟩

/-- C10: in the fill phase `process_sample` returns before the envelope
update — the envelope (0 right after construction) keeps its prior value for
arbitrarily loud input, the sample is emitted unattenuated, and only the
FIFO grows. -/
theorem limiter_fill_no_envelope_update (db2lin expNegInv : ℚ → ℚ)
    (th rts ls sr x : ℚ) (n : LimiterNode)
    (hfill : n.lookahead_buffer.length + 1 < n.lookahead_samples) :
    (LimiterNode.new expNegInv th rts ls sr).envelope = 0
    ∧ LimiterNode.process_sample db2lin n x =
      (⟨n.threshold, n.release_coeff, n.envelope, n.lookahead_buffer ++ [x],
        n.lookahead_samples⟩, x) := by
  refine ⟨rfl, ?_⟩
  simp [LimiterNode.process_sample, hfill]

/-- Witness for C10: a filling limiter (FIFO shorter than the lookahead by
two) passes a loud sample (100) through and keeps its envelope at 5. -/
theorem limiter_fill_no_envelope_update_witness :
    (LimiterNode.new expNegInvTest (-6) (1/10) (1/1000) 44100).envelope = 0
    ∧ LimiterNode.process_sample db2linTest ⟨0, 1/2, 5, [], 2⟩ 100 =
        (⟨0, 1/2, 5, [100], 2⟩, 100) :=
  ⟨(limiter_fill_no_envelope_update db2linTest expNegInvTest (-6) (1/10) (1/1000) 44100 100
      ⟨0, 1/2, 5, [], 2⟩ (by decide)).1,
   (limiter_fill_no_envelope_update db2linTest expNegInvTest (-6) (1/10) (1/1000) 44100 100
      ⟨0, 1/2, 5, [], 2⟩ (by decide)).2⟩

/-- C6: in the steady phase, once the post-update envelope has risen above
the threshold and stabilized — formalised as: it exceeds the branch
threshold, is positive, and dominates the magnitude of the pending sample
about to be emitted — the emitted sample's magnitude never exceeds the
configured threshold interpreted as a linear amplitude (`db2lin` of the
threshold field). -/
theorem limiter_steady_output_bounded (db2lin : ℚ → ℚ) (n : LimiterNode) (x : ℚ)
    (hsteady : ¬ n.lookahead_buffer.length + 1 < n.lookahead_samples)
    (henv : 0 < envUpdate n.release_coeff n.envelope |x|)
    (hbranch : n.threshold < envUpdate n.release_coeff n.envelope |x|)
    (hth : 0 < db2lin n.threshold)
    (hdom : |((n.lookahead_buffer ++ [x]).head?).getD 0|
      ≤ envUpdate n.release_coeff n.envelope |x|) :
    |(LimiterNode.process_sample db2lin n x).2| ≤ db2lin n.threshold := by
  have houtput :
      (LimiterNode.process_sample db2lin n x).2 =
        ((n.lookahead_buffer ++ [x]).head?).getD 0 *
          (db2lin n.threshold / envUpdate n.release_coeff n.envelope |x|) := by
    simp [LimiterNode.process_sample, hsteady, hbranch]
  rw [houtput, abs_mul,
    abs_of_pos (div_pos hth henv)]
  have hmul :
      |((n.lookahead_buffer ++ [x]).head?).getD 0| *
          (db2lin n.threshold / envUpdate n.release_coeff n.envelope |x|)
        ≤ envUpdate n.release_coeff n.envelope |x| *
          (db2lin n.threshold / envUpdate n.release_coeff n.envelope |x|) :=
    mul_le_mul_of_nonneg_right hdom (div_pos hth henv).le
  have hcancel :
      envUpdate n.release_coeff n.envelope |x| *
          (db2lin n.threshold / envUpdate n.release_coeff n.envelope |x|)
        = db2lin n.threshold := by
    field_simp
  linarith

/-- Witness for C6: threshold -20 dB, envelope stabilised at 1 with a
constant full-scale input; the emitted sample is clamped to the linear
amplitude 1/10. -/
theorem limiter_steady_output_bounded_witness :
    |(LimiterNode.process_sample db2linTest ⟨-20, 1/2, 1, [1], 2⟩ 1).2| ≤ db2linTest (-20) :=
  limiter_steady_output_bounded db2linTest ⟨-20, 1/2, 1, [1], 2⟩ 1
    (by decide)
    (by norm_num [envUpdate])
    (by norm_num [envUpdate])
    (by norm_num [db2linTest])
    (by norm_num [envUpdate])

lemma envUpdate_nonneg (c env lvl : ℚ) (hc0 : 0 ≤ c) (hc1 : c ≤ 1)
    (henv : 0 ≤ env) (hlvl : 0 ≤ lvl) : 0 ≤ envUpdate c env lvl := by
  unfold envUpdate
  split
  · exact hlvl
  · have h1 : 0 ≤ c * env := mul_nonneg hc0 henv
    have h2 : 0 ≤ (1 - c) * lvl := mul_nonneg (by linarith) hlvl
    linarith

lemma envUpdate_zero_input (c env : ℚ) (henv : 0 < env) :
    envUpdate c env 0 = c * env := by
  unfold envUpdate
  rw [if_neg (by linarith)]
  ring

/-- C7: the envelope never becomes negative (instant attack takes an
absolute value, release is a convex combination, release coefficient in
[0,1]); and over zero-valued steady-phase input following a positive
envelope it strictly decreases at every step while staying positive
(release coefficient in (0,1)). -/
theorem limiter_envelope_invariant (db2lin : ℚ → ℚ) (n : LimiterNode) (x : ℚ) :
    (0 ≤ n.release_coeff → n.release_coeff ≤ 1 → 0 ≤ n.envelope →
      0 ≤ ((LimiterNode.process_sample db2lin n x).1).envelope)
    ∧ (0 < n.release_coeff → n.release_coeff < 1 → 0 < n.envelope →
      ¬ n.lookahead_buffer.length + 1 < n.lookahead_samples →
      ((LimiterNode.process_sample db2lin n 0).1).envelope < n.envelope
        ∧ 0 < ((LimiterNode.process_sample db2lin n 0).1).envelope) := by
  constructor
  · intro hc0 hc1 he0
    by_cases hf : n.lookahead_buffer.length + 1 < n.lookahead_samples
    · simpa [LimiterNode.process_sample, hf] using he0
    · have hnn := envUpdate_nonneg n.release_coeff n.envelope |x| hc0 hc1 he0 (abs_nonneg x)
      simpa [LimiterNode.process_sample, hf] using hnn
  · intro hc0 hc1 he0 hf
    have henv :
        ((LimiterNode.process_sample db2lin n 0).1).envelope = n.release_coeff * n.envelope := by
      simp [LimiterNode.process_sample, hf]
      exact envUpdate_zero_input n.release_coeff n.envelope he0
    rw [henv]
    constructor
    · nlinarith
    · exact mul_pos hc0 he0

/-- Witness for C7: release coefficient 1/2, envelope 1, lookahead 1 (steady
phase), zero input: the envelope halves to 1/2, staying positive. -/
theorem limiter_envelope_invariant_witness :
    0 ≤ ((LimiterNode.process_sample db2linTest ⟨-20, 1/2, 1, [], 1⟩ 0).1).envelope
    ∧ (((LimiterNode.process_sample db2linTest ⟨-20, 1/2, 1, [], 1⟩ 0).1).envelope < 1
      ∧ 0 < ((LimiterNode.process_sample db2linTest ⟨-20, 1/2, 1, [], 1⟩ 0).1).envelope) :=
  ⟨(limiter_envelope_invariant db2linTest ⟨-20, 1/2, 1, [], 1⟩ 0).1
      (by norm_num) (by norm_num) (by norm_num),
   (limiter_envelope_invariant db2linTest ⟨-20, 1/2, 1, [], 1⟩ 0).2
      (by norm_num) (by norm_num) (by norm_num) (by decide)⟩

/-- C9: `box_clone` copies configuration and the current mutable state
(envelope and FIFO — not a reset), and the copy lives at a fresh index of
the node store: processing the duplicate leaves the original's entry
untouched and processing the original leaves the duplicate's entry
untouched (no shared mutable state). -/
theorem box_clone_independent (db2lin : ℚ → ℚ) (s : List LimiterNode) (i : ℕ)
    (n : LimiterNode) (xs ys : List ℚ) (h : s[i]? = some n) :
    LimiterNode.box_clone n = n
    ∧ (storeDup s i)[s.length]? = some n
    ∧ ((storeProcess db2lin (storeDup s i) s.length xs).1)[i]? = some n
    ∧ ((storeProcess db2lin (storeDup s i) i ys).1)[s.length]? = some n := by
  have hclone : LimiterNode.box_clone n = n := rfl
  have hi : i < s.length := by
    rcases List.getElem?_eq_some.1 h with ⟨hlt, _⟩
    exact hlt
  have hdup : storeDup s i = s ++ [LimiterNode.box_clone n] := by
    simp [storeDup, h]
  have hlast : (s ++ [LimiterNode.box_clone n])[s.length]? = some (LimiterNode.box_clone n) :=
    List.getElem?_concat_length s _
  have hleft : (s ++ [LimiterNode.box_clone n])[i]? = some n := by
    rw [List.getElem?_append_left hi]
    exact h
  refine ⟨hclone, ?_, ?_, ?_⟩
  · rw [hdup, hlast, hclone]
  · rw [hdup]
    simp only [storeProcess, hlast]
    rw [List.getElem?_set_ne (ne_of_lt hi).symm]
    exact hleft
  · rw [hdup]
    simp only [storeProcess, hleft]
    rw [List.getElem?_set_ne (ne_of_lt hi), hlast, hclone]

/-- Witness for C9 on a one-node store: the duplicate of the limiter (with
live state: envelope 1, one pending sample) appears at index 1 with that
state, and processing either index leaves the other's entry unchanged. -/
theorem box_clone_independent_witness :
    LimiterNode.box_clone ⟨-20, 1/2, 1, [4], 2⟩ = ⟨-20, 1/2, 1, [4], 2⟩
    ∧ (storeDup [⟨-20, 1/2, 1, [4], 2⟩] 0)[1]? = some ⟨-20, 1/2, 1, [4], 2⟩
    ∧ ((storeProcess db2linTest (storeDup [⟨-20, 1/2, 1, [4], 2⟩] 0) 1 [9]).1)[0]? =
        some ⟨-20, 1/2, 1, [4], 2⟩
    ∧ ((storeProcess db2linTest (storeDup [⟨-20, 1/2, 1, [4], 2⟩] 0) 0 [0, 3]).1)[1]? =
        some ⟨-20, 1/2, 1, [4], 2⟩ :=
  box_clone_independent db2linTest [⟨-20, 1/2, 1, [4], 2⟩] 0 ⟨-20, 1/2, 1, [4], 2⟩
    [9] [0, 3] rfl
